import Mathlib

/-!
Verification development for the YouTube transcript subsystem of the
Perplexica repository: URL/ID extraction (`transcriptExtractor.ts`),
the TTL+LRU transcript cache (`transcriptCache.ts`), the sliding-window
rate limiter (`rateLimiter.ts`), the extraction orchestrator
(`extractYouTubeTranscript`), and the transcript agent
(`youtubeTranscriptAgent.ts`, in its inline and deferred variants).

Conventions of the embedding:
* JavaScript timestamps (`Date.now()`) are modelled as `Int` milliseconds.
* The insertion-ordered JS `Map` backing the cache is modelled as an
  association list in iteration order; `Map.set` on an existing key keeps
  the key at its current position, `delete` followed by `set` moves it to
  the end, exactly as in V8.
* Network calls (`fetch`, the Data API, the caption endpoint) are external
  collaborators; their outcomes enter the model as explicit parameters
  (`ExtractEnv`).  A thrown JS error is modelled as `Except.error msg`.
* The two regular expressions of `extractYouTubeVideoId` are embedded as a
  backtracking matcher with JS semantics: leftmost match position,
  alternatives in source order, greedy quantifiers with backtracking.
-/

namespace Perplexica

/-! ## URL / video-ID extraction (`transcriptExtractor.ts` lines 48-61) -/

/-- ASCII part of the JavaScript `\s` character class (the inputs we reason
about are ASCII, so the Unicode space characters are omitted). -/
def isJsSpace (c : Char) : Bool :=
  c == ' ' || c == '\t' || c == '\n' || c == '\r' || c == '\x0b' || c == '\x0c'

/-- Character class `[^"&?\/\s]` of the video-ID capture group. -/
def isIdChar (c : Char) : Bool :=
  !(c == '"' || c == '&' || c == '?' || c == '/' || isJsSpace c)

/-- Backtracking alternation on `Option`: take the first branch if it
succeeded, otherwise the second (JS alternative order). -/
def ob {α : Type} : Option α → Option α → Option α
  | some v, _ => some v
  | none, y => y

/-- Capture group `([^"&?\/\s]{11})`: exactly eleven id-class characters;
the rest of the input is unconstrained (the pattern ends here). -/
def capture11 (cs : List Char) : Option (List Char) :=
  if (cs.take 11).length = 11 ∧ (cs.take 11).all isIdChar then
    some (cs.take 11)
  else
    none

/-- Literal matching in continuation style: consume the characters of
`pat` one by one, then hand the rest to the continuation `k`. -/
def lit (pat : List Char) (k : List Char → Option (List Char)) :
    List Char → Option (List Char) :=
  match pat with
  | [] => k
  | p :: ps => fun cs =>
    match cs with
    | [] => none
    | c :: cs => if p = c then lit ps k cs else none

/-- Greedy `p*` with backtracking: prefer consuming another `p`-character,
fall back to the continuation on failure (JS greedy quantifier). -/
def manyG (p : Char → Bool) (k : List Char → Option (List Char)) :
    List Char → Option (List Char)
  | [] => k []
  | c :: cs => if p c then ob (manyG p k cs) (k (c :: cs)) else k (c :: cs)

/-- Greedy `p+` with backtracking: one mandatory `p`-character, then `p*`. -/
def many1 (p : Char → Bool) (k : List Char → Option (List Char)) :
    List Char → Option (List Char)
  | [] => none
  | c :: cs => if p c then manyG p k cs else none

/-- Alternative `[^\/]+\/.+\/` of the host pattern, continued by the
eleven-character capture. -/
def hostAlt1 : List Char → Option (List Char) :=
  many1 (fun c => !(c == '/'))
    (lit ['/'] (many1 (fun c => !(c == '\n')) (lit ['/'] capture11)))

/-- Alternative `(?:v|e(?:mbed)?)\/` of the host pattern: the JS engine
tries `v`, then the greedy optional `embed`, then `e`, each followed by a
slash and the capture. -/
def hostAlt2 (cs : List Char) : Option (List Char) :=
  ob (lit ['v', '/'] capture11 cs)
    (ob (lit ['e', 'm', 'b', 'e', 'd', '/'] capture11 cs)
      (lit ['e', '/'] capture11 cs))

/-- Continuation used by the `.*[?&]v=` alternative once the greedy dot-star
stops: one `?` or `&`, the literal `v=`, then the capture. -/
def qMarkCont (cs : List Char) : Option (List Char) :=
  match cs with
  | [] => none
  | c :: cs => if c == '?' || c == '&' then lit ['v', '='] capture11 cs else none

/-- Alternative `.*[?&]v=` of the host pattern. -/
def hostAlt3 : List Char → Option (List Char) :=
  manyG (fun c => !(c == '\n')) qMarkCont

/-- What may follow `youtube.com/` in the first pattern: the three inner
alternatives, in source order. -/
def afterHost (cs : List Char) : Option (List Char) :=
  ob (hostAlt1 cs) (ob (hostAlt2 cs) (hostAlt3 cs))

/-- The characters of the literal `youtube.com/`. -/
def ytHost : List Char :=
  ['y', 'o', 'u', 't', 'u', 'b', 'e', '.', 'c', 'o', 'm', '/']

/-- The characters of the literal `youtu.be/`. -/
def ytShort : List Char := ['y', 'o', 'u', 't', 'u', '.', 'b', 'e', '/']

/-- One match attempt of the first pattern
`(?:youtube\.com\/(?:[^\/]+\/.+\/|(?:v|e(?:mbed)?)\/|.*[?&]v=)|youtu\.be\/)([^"&?\/\s]{11})`
anchored at the current position. -/
def tryAt (cs : List Char) : Option (List Char) :=
  ob (lit ytHost afterHost cs) (lit ytShort capture11 cs)

/-- Unanchored search of the first pattern: try every start position from
the left, as `String.prototype.match` does. -/
def findCapture : List Char → Option (List Char)
  | [] => tryAt []
  | c :: cs => ob (tryAt (c :: cs)) (findCapture cs)

/-- Second pattern `^([^"&?\/\s]{11})$`: the whole input is a bare
eleven-character id token. -/
def bareId (cs : List Char) : Option (List Char) :=
  if cs.length = 11 ∧ cs.all isIdChar then some cs else none

/-- Character-list core of `extractYouTubeVideoId`: the two patterns are
tried in order, the first capture group of the first match is returned. -/
def extractIdChars (cs : List Char) : Option (List Char) :=
  ob (findCapture cs) (bareId cs)

/-- Source function `extractYouTubeVideoId` of `transcriptExtractor.ts`. -/
def extractYouTubeVideoId (url : String) : Option String :=
  (extractIdChars url.data).map String.mk

/-! ## Data model (`transcriptExtractor.ts` lines 9-45) -/

/-- Interface `YouTubeVideoInfo` (rich variant of
`src/lib/youtube/transcriptExtractor.ts`; the `part_007` variant carries
the subset `videoId/title/author/duration/thumbnail/url`). -/
structure YouTubeVideoInfo where
  videoId : String
  title : String
  author : String
  channelId : String
  duration : Nat
  thumbnail : String
  url : String
  publishedAt : String
  viewCount : Nat
  likeCount : Option Nat
  commentCount : Option Nat
  description : String
  tags : List String
  categoryId : Option String
  defaultLanguage : Option String
  defaultAudioLanguage : Option String
  liveBroadcastContent : Option String
  dimension : Option String
  definition : Option String
  caption : Option String
  licensedContent : Option Bool
  projection : Option String
deriving DecidableEq

/-- Interface `YouTubeTranscript` (one timed caption segment).  The start
offset and duration are seconds obtained in the source by dividing the
caption engine's milliseconds by 1000; the JS floating-point values are
abstracted as rationals. -/
structure YouTubeTranscriptSeg where
  text : String
  start : Rat
  duration : Rat
deriving DecidableEq

/-- Interface `YouTubeTranscriptResult`: the aggregate unit of work and the
unit stored in the cache. -/
structure YouTubeTranscriptResult where
  videoInfo : YouTubeVideoInfo
  transcript : List YouTubeTranscriptSeg
  fullText : String
  error : Option String
deriving DecidableEq

/-! ## Transcript cache (`transcriptCache.ts`) -/

/-- Interface `CacheEntry` of `transcriptCache.ts`. -/
structure CacheEntry where
  result : YouTubeTranscriptResult
  timestamp : Int
  expiresAt : Int
deriving DecidableEq

/-- Class `TranscriptCache`: the backing JS `Map` is modelled as an
association list in iteration (insertion) order. -/
structure TranscriptCache where
  entries : List (String × CacheEntry)
  maxSize : Nat
  ttl : Int
deriving DecidableEq

/-- Lookup in the association list modelling `Map.prototype.get`. -/
def lookupEntry : List (String × CacheEntry) → String → Option CacheEntry
  | [], _ => none
  | (k, v) :: t, id => if k = id then some v else lookupEntry t id

/-- Removal of a key, modelling `Map.prototype.delete` (iteration order of
the remaining entries is unchanged). -/
def eraseKey : List (String × CacheEntry) → String → List (String × CacheEntry)
  | [], _ => []
  | (k, v) :: t, id => if k = id then t else (k, v) :: eraseKey t id

/-- Insertion modelling `Map.prototype.set`: an existing key keeps its
position in iteration order and only its value is replaced; a new key is
appended at the end. -/
def mapSet : List (String × CacheEntry) → String → CacheEntry →
    List (String × CacheEntry)
  | [], id, e => [(id, e)]
  | (k, v) :: t, id, e =>
    if k = id then (k, e) :: t else (k, v) :: mapSet t id e

/-- Method `TranscriptCache.get` (lines 21-39): purge-on-read of an expired
entry, LRU touch (delete + re-set moves the entry to the end of iteration
order) of a live one.  Returns the JS return value and the updated cache. -/
def cacheGet (now : Int) (videoId : String) (c : TranscriptCache) :
    Option YouTubeTranscriptResult × TranscriptCache :=
  match lookupEntry c.entries videoId with
  | none => (none, c)
  | some entry =>
    if now > entry.expiresAt then
      (none, { c with entries := eraseKey c.entries videoId })
    else
      (some entry.result,
        { c with entries := eraseKey c.entries videoId ++ [(videoId, entry)] })

/-- Method `TranscriptCache.set` (lines 42-61): a no-op for error results;
otherwise, when the map is at capacity the first key in iteration order is
deleted, then the entry is written with `expiresAt = now + ttl`.  Note that
`Map.keys().next().value` is the head of the iteration order and that the
eviction happens even when `videoId` is already present. -/
def cacheSet (now : Int) (videoId : String) (result : YouTubeTranscriptResult)
    (c : TranscriptCache) : TranscriptCache :=
  if result.error.isSome then c
  else
    let entries1 := if c.entries.length ≥ c.maxSize then c.entries.tail else c.entries
    { c with entries := mapSet entries1 videoId ⟨result, now, now + c.ttl⟩ }

/-- A fresh cache, as built by `new TranscriptCache(maxSize, ttlHours)`
(the hour-to-millisecond conversion is outside the model; `ttl` is already
in milliseconds). -/
def mkCache (maxSize : Nat) (ttl : Int) : TranscriptCache := ⟨[], maxSize, ttl⟩

/-- Folding `set` over a list of key/result pairs (a sequence of `set`
calls sharing one clock reading). -/
def setAll (now : Int) (kvs : List (String × YouTubeTranscriptResult))
    (c : TranscriptCache) : TranscriptCache :=
  kvs.foldl (fun acc kv => cacheSet now kv.1 kv.2 acc) c

/-! ## Rate limiter (`rateLimiter.ts`, `part_006`) -/

/-- Class `RateLimiter`: raw request timestamps plus the window
parameters. -/
structure RateLimiter where
  requests : List Int
  maxRequests : Nat
  windowMs : Int
deriving DecidableEq

/-- Private method `cleanup`: drop timestamps at or before `now - windowMs`
(the source keeps `timestamp > cutoff`). -/
def cleanup (now : Int) (rl : RateLimiter) : RateLimiter :=
  { rl with requests := rl.requests.filter fun t => t > now - rl.windowMs }

/-- Method `canMakeRequest`: purge, then compare the remaining count with
the ceiling.  Returns the JS boolean and the mutated limiter. -/
def canMakeRequest (now : Int) (rl : RateLimiter) : Bool × RateLimiter :=
  let rl2 := cleanup now rl
  (decide (rl2.requests.length < rl2.maxRequests), rl2)

/-- Method `recordRequest`: purge, then append `now`. -/
def recordRequest (now : Int) (rl : RateLimiter) : RateLimiter :=
  let rl2 := cleanup now rl
  { rl2 with requests := rl2.requests ++ [now] }

/-- A sequence of `recordRequest` calls at the given times. -/
def recordAll (ts : List Int) (rl : RateLimiter) : RateLimiter :=
  ts.foldl (fun acc t => recordRequest t acc) rl

/-! ## Extraction orchestrator (`extractYouTubeTranscript`,
`transcriptExtractor.ts` lines 215-291) -/

/-- Outcomes of the external collaborators consumed by one orchestrator
invocation.  `fetchInfo` is the value of the `fetchVideoInfoWithAPI` call
launched in `Promise.all` (that function catches everything and returns
`null` on failure, hence `Option`); `fetchTranscriptRes` is the outcome of
`fetchTranscript`, whose classified thrown error is `Except.error`;
`fetchInfoRetry` is the second, best-effort metadata fetch performed on the
error path.  `now` is the clock reading for the cache operations, `nowIso`
the value of `new Date().toISOString()` used in placeholder records. -/
structure ExtractEnv where
  now : Int
  nowIso : String
  fetchInfo : Option YouTubeVideoInfo
  fetchTranscriptRes : Except String (List YouTubeTranscriptSeg)
  fetchInfoRetry : Option YouTubeVideoInfo

/-- Placeholder metadata of the invalid-URL result (lines 220-232): every
field empty or zero except the raw input URL. -/
def invalidUrlInfo (env : ExtractEnv) (url : String) : YouTubeVideoInfo :=
  { videoId := "", title := "", author := "", channelId := "", duration := 0
    thumbnail := "", url := url, publishedAt := env.nowIso, viewCount := 0
    likeCount := none, commentCount := none, description := "", tags := []
    categoryId := none, defaultLanguage := none, defaultAudioLanguage := none
    liveBroadcastContent := none, dimension := none, definition := none
    caption := none, licensedContent := none, projection := none }

/-- The invalid-URL result (lines 218-237). -/
def invalidResult (env : ExtractEnv) (url : String) : YouTubeTranscriptResult :=
  { videoInfo := invalidUrlInfo env url, transcript := [], fullText := ""
    error := some "Invalid YouTube URL" }

/-- Placeholder metadata of the catch-path result (lines 273-285). -/
def unknownVideoInfo (env : ExtractEnv) (videoId : String) : YouTubeVideoInfo :=
  { videoId := videoId, title := "Unknown Video", author := "Unknown Author"
    channelId := "", duration := 0, thumbnail := ""
    url := "https://www.youtube.com/watch?v=" ++ videoId
    publishedAt := env.nowIso, viewCount := 0
    likeCount := none, commentCount := none, description := "", tags := []
    categoryId := none, defaultLanguage := none, defaultAudioLanguage := none
    liveBroadcastContent := none, dimension := none, definition := none
    caption := none, licensedContent := none, projection := none }

/-- The catch-path result (lines 270-290): best-effort re-fetched metadata
(or the placeholder), empty segments and text, and the thrown message (the
generic message replaces an empty one, mirroring `error.message || ...`). -/
def errorPathResult (env : ExtractEnv) (videoId : String) (msg : String) :
    YouTubeTranscriptResult :=
  { videoInfo := env.fetchInfoRetry.getD (unknownVideoInfo env videoId)
    transcript := [], fullText := ""
    error := some (if msg = "" then
      "Failed to extract transcript. The video might not have captions available."
      else msg) }

/-- The cache-miss stage of the orchestrator (lines 246-290): `Promise.all`
of the metadata and transcript fetches.  A transcript rejection carries its
classified message into the catch; a `null` metadata record raises
`Failed to fetch video information`; on joint success the segment texts are
joined with single spaces, the result is cached and returned. -/
def extractFetch (env : ExtractEnv) (videoId : String) (cache1 : TranscriptCache) :
    YouTubeTranscriptResult × TranscriptCache :=
  match env.fetchInfo, env.fetchTranscriptRes with
  | some videoInfo, Except.ok transcript =>
    let fullText := String.intercalate " " (transcript.map (·.text))
    let result : YouTubeTranscriptResult :=
      { videoInfo := videoInfo, transcript := transcript, fullText := fullText
        error := none }
    (result, cacheSet env.now videoId result cache1)
  | some _, Except.error e => (errorPathResult env videoId e, cache1)
  | none, Except.ok _ =>
    (errorPathResult env videoId "Failed to fetch video information", cache1)
  | none, Except.error e => (errorPathResult env videoId e, cache1)

/-- Source function `extractYouTubeTranscript` (lines 215-291).  The JS
function never throws: every fallible step is caught and converted into a
result value, so the model is a total function.  The shared cache is
threaded explicitly. -/
def extractYouTubeTranscript (env : ExtractEnv) (url : String)
    (cache : TranscriptCache) : YouTubeTranscriptResult × TranscriptCache :=
  match extractYouTubeVideoId url with
  | none => (invalidResult env url, cache)
  | some videoId =>
    match cacheGet env.now videoId cache with
    | (some cachedResult, cache1) => (cachedResult, cache1)
    | (none, cache1) => extractFetch env videoId cache1

/-! ## Transcript agent (`youtubeTranscriptAgent.ts`, `part_005`) -/

/-- Events of the LangChain `streamEvents` iterator that the agent's
for-await loop inspects: a chunk of the response chain, the chain-end
event, or any other event (ignored by both branches of the loop). -/
inductive ChainStreamEvent where
  | streamChunk (chunk : String)
  | chainEnd
  | otherEvent
deriving DecidableEq

/-- The four event kinds the agent can emit to its consumer, with the
payload of the `sources` frame left polymorphic (the two agent variants
build slightly different source records). -/
inductive AgentEvent (σ : Type) where
  | sources (data : List σ)
  | response (chunk : String)
  | endEvent
  | errorEvent (msg : String)
deriving DecidableEq

/-- The for-await loop over the generator stream (`part_005` lines
220-247): each matching chunk event is re-emitted as a `response` frame,
each matching chain-end event as the `end` signal; other events emit
nothing. -/
def emitStreamEvents {σ : Type} (stream : List ChainStreamEvent) :
    List (AgentEvent σ) :=
  stream.filterMap fun ev =>
    match ev with
    | .streamChunk c => some (.response c)
    | .chainEnd => some .endEvent
    | .otherEvent => none

/-- The fixed no-URL response (`part_005` lines 259-263). -/
def noUrlMsg : String :=
  "Please provide a YouTube URL to analyze. I can extract transcripts from YouTube videos and answer questions about their content."

/-- The fixed all-failed response (`part_005` lines 251-255). -/
def noTranscriptMsg : String :=
  "I couldn\x27t extract transcripts from the YouTube videos. The videos might not have captions available, or there might be an issue with the URLs provided."

/-- The agent orchestration body shared by the two variants (`part_005`
`processYouTubeSearch` lines 81-271 and the inline variant's
`searchAndAnswer` body): detect-or-receive the URL list, extract one
result per URL in order (`extractYouTubeTranscript` never throws, so the
per-URL catch is dead), then either emit the no-URL prompt, the all-failed
explanation, or the `sources` frame (one entry per error-free result, in
input order) followed by the relayed generator stream.  The opaque text
generator, its context/query inputs and the LangChain chain are abstracted
into the `stream` parameter; `mkSrc` is the variant's source-record
builder. -/
def agentCore {σ : Type} (mkSrc : YouTubeTranscriptResult → σ)
    (extractOutcome : String → YouTubeTranscriptResult)
    (urls : List String) (stream : List ChainStreamEvent) :
    List (AgentEvent σ) :=
  if 0 < urls.length then
    let transcriptResults := urls.map extractOutcome
    let okResults := transcriptResults.filter fun r => r.error.isNone
    if 0 < okResults.length then
      AgentEvent.sources (okResults.map mkSrc) :: emitStreamEvents stream
    else
      [AgentEvent.response noTranscriptMsg, AgentEvent.endEvent]
  else
    [AgentEvent.response noUrlMsg, AgentEvent.endEvent]

/-- Metadata object attached to each source entry by `part_005` (lines
170-197): the full `videoInfo` field set plus the `youtube` type tag, the
video id and the segment list under both a primary and an alias key. -/
structure SourceMetadata where
  title : String
  url : String
  thumbnail : String
  author : String
  channelId : String
  duration : Nat
  publishedAt : String
  viewCount : Nat
  likeCount : Option Nat
  commentCount : Option Nat
  description : String
  tags : List String
  categoryId : Option String
  defaultLanguage : Option String
  defaultAudioLanguage : Option String
  liveBroadcastContent : Option String
  dimension : Option String
  definition : Option String
  caption : Option String
  licensedContent : Option Bool
  projection : Option String
  typeTag : String
  videoId : String
  transcriptLength : Nat
  transcript : List YouTubeTranscriptSeg
  transcriptData : List YouTubeTranscriptSeg
deriving DecidableEq

/-- One entry of the `sources` array emitted by `part_005`. -/
structure AgentSource where
  pageContent : String
  metadata : SourceMetadata
deriving DecidableEq

/-- Left-pad a string to two characters with `0`
(`String.prototype.padStart(2, '0')`). -/
def padStart2 (s : String) : String :=
  if s.length ≥ 2 then s else if s.length = 1 then "0" ++ s else "00"

/-- The structured fallback page content built by `part_005` (lines
157-166) when a successfully fetched video has an empty `fullText`.  The
locale-dependent JS formatting (`toLocaleString`, `toLocaleDateString`) is
abstracted as plain decimal printing and the raw ISO timestamp. -/
def fallbackBlock (info : YouTubeVideoInfo) : String :=
  "Title: " ++ info.title ++
  "\nAuthor: " ++ info.author ++
  "\nDuration: " ++ toString (info.duration / 60) ++ ":" ++
    padStart2 (toString (info.duration % 60)) ++
  "\nViews: " ++ toString info.viewCount ++
  "\nPublished: " ++ info.publishedAt ++
  "\n\nDescription:\n" ++
    (if info.description = "" then "No description available" else info.description) ++
  "\n\nTags: " ++
    (if info.tags = [] then "None" else String.intercalate ", " info.tags)

/-- Source-record builder of `part_005` (lines 155-199): transcript text if
non-empty, otherwise the structured metadata block. -/
def mkSourceFallback (r : YouTubeTranscriptResult) : AgentSource :=
  { pageContent := if r.fullText = "" then fallbackBlock r.videoInfo else r.fullText
    metadata :=
      { title := r.videoInfo.title, url := r.videoInfo.url
        thumbnail := r.videoInfo.thumbnail, author := r.videoInfo.author
        channelId := r.videoInfo.channelId, duration := r.videoInfo.duration
        publishedAt := r.videoInfo.publishedAt, viewCount := r.videoInfo.viewCount
        likeCount := r.videoInfo.likeCount, commentCount := r.videoInfo.commentCount
        description := r.videoInfo.description, tags := r.videoInfo.tags
        categoryId := r.videoInfo.categoryId
        defaultLanguage := r.videoInfo.defaultLanguage
        defaultAudioLanguage := r.videoInfo.defaultAudioLanguage
        liveBroadcastContent := r.videoInfo.liveBroadcastContent
        dimension := r.videoInfo.dimension, definition := r.videoInfo.definition
        caption := r.videoInfo.caption, licensedContent := r.videoInfo.licensedContent
        projection := r.videoInfo.projection, typeTag := "youtube"
        videoId := r.videoInfo.videoId, transcriptLength := r.transcript.length
        transcript := r.transcript, transcriptData := r.transcript } }

/-- Metadata object of the inline variant
(`src/lib/search/youtubeTranscriptAgent.ts` lines 118-131), which attaches
a smaller field set. -/
structure NamedSourceMetadata where
  title : String
  url : String
  thumbnail : String
  author : String
  typeTag : String
  videoId : String
  transcriptLength : Nat
  transcript : List YouTubeTranscriptSeg
  transcriptData : List YouTubeTranscriptSeg
deriving DecidableEq

/-- One entry of the `sources` array emitted by the inline variant. -/
structure NamedAgentSource where
  pageContent : String
  metadata : NamedSourceMetadata
deriving DecidableEq

/-- Source-record builder of the inline variant: always the raw
`fullText`, without the metadata fallback block. -/
def mkSourceNamed (r : YouTubeTranscriptResult) : NamedAgentSource :=
  { pageContent := r.fullText
    metadata :=
      { title := r.videoInfo.title, url := r.videoInfo.url
        thumbnail := r.videoInfo.thumbnail, author := r.videoInfo.author
        typeTag := "youtube", videoId := r.videoInfo.videoId
        transcriptLength := r.transcript.length
        transcript := r.transcript, transcriptData := r.transcript } }

/-- Private method `processYouTubeSearch` of `part_005` (lines 69-272),
as the event list it emits. -/
def processYouTubeSearch (extractOutcome : String → YouTubeTranscriptResult)
    (urls : List String) (stream : List ChainStreamEvent) :
    List (AgentEvent AgentSource) :=
  agentCore mkSourceFallback extractOutcome urls stream

/-- Scheduling model of `part_005`'s `searchAndAnswer` (lines 49-67): the
emitter is created and returned immediately, the orchestration body being
deferred with `setImmediate` to a later event-loop turn, so no event is
emitted during the call itself. -/
def deferredEmittedDuringCall (extractOutcome : String → YouTubeTranscriptResult)
    (urls : List String) (stream : List ChainStreamEvent) :
    List (AgentEvent AgentSource) :=
  []

/-- Scheduling model of `part_005`'s `searchAndAnswer`, continued: the
whole event sequence is emitted on later event-loop turns, after the call
has returned the emitter and the caller has had the chance to attach its
listeners. -/
def deferredEmittedAfterReturn (extractOutcome : String → YouTubeTranscriptResult)
    (urls : List String) (stream : List ChainStreamEvent) :
    List (AgentEvent AgentSource) :=
  processYouTubeSearch extractOutcome urls stream

/-- Scheduling model of the inline variant's `searchAndAnswer`
(`src/lib/search/youtubeTranscriptAgent.ts` lines 49-182): the async method
awaits the entire orchestration body inline and only then reaches
`return emitter`, so every event is emitted before the returned promise
resolves — during the call, before any listener can be attached. -/
def inlineEmittedDuringCall (extractOutcome : String → YouTubeTranscriptResult)
    (urls : List String) (stream : List ChainStreamEvent) :
    List (AgentEvent NamedAgentSource) :=
  agentCore mkSourceNamed extractOutcome urls stream

/-- Scheduling model of the inline variant, continued: nothing is left to
emit once the call has returned. -/
def inlineEmittedAfterReturn (extractOutcome : String → YouTubeTranscriptResult)
    (urls : List String) (stream : List ChainStreamEvent) :
    List (AgentEvent NamedAgentSource) :=
  []

/-! ## Association-list lemmas for the cache model -/

theorem lookupEntry_eq_none_iff (l : List (String × CacheEntry)) (k : String) :
    lookupEntry l k = none ↔ k ∉ l.map Prod.fst := by
  induction l with
  | nil => simp [lookupEntry]
  | cons h t ih =>
    obtain ⟨k', v⟩ := h
    by_cases hk : k' = k
    · subst hk; simp [lookupEntry]
    · simp [lookupEntry, hk, ih, Ne.symm hk]

theorem lookupEntry_mapSet_self (l : List (String × CacheEntry)) (k : String)
    (e : CacheEntry) : lookupEntry (mapSet l k e) k = some e := by
  induction l with
  | nil => simp [mapSet, lookupEntry]
  | cons h t ih =>
    obtain ⟨k', v⟩ := h
    by_cases hk : k' = k
    · simp [mapSet, hk, lookupEntry]
    · simp [mapSet, hk, lookupEntry, ih]

theorem mapSet_of_not_mem (l : List (String × CacheEntry)) (k : String)
    (e : CacheEntry) (h : k ∉ l.map Prod.fst) : mapSet l k e = l ++ [(k, e)] := by
  induction l with
  | nil => simp [mapSet]
  | cons hd t ih =>
    obtain ⟨k', v⟩ := hd
    simp only [List.map_cons, List.mem_cons, not_or] at h
    simp [mapSet, Ne.symm h.1, ih h.2]

theorem mapSet_map_fst_of_mem (l : List (String × CacheEntry)) (k : String)
    (e : CacheEntry) (h : k ∈ l.map Prod.fst) :
    (mapSet l k e).map Prod.fst = l.map Prod.fst := by
  induction l with
  | nil => simp at h
  | cons hd t ih =>
    obtain ⟨k', v⟩ := hd
    by_cases hk : k' = k
    · simp [mapSet, hk]
    · simp only [List.map_cons, List.mem_cons, Ne.symm hk, false_or] at h
      simp [mapSet, hk, ih h]

theorem lookupEntry_append_of_none (l1 l2 : List (String × CacheEntry))
    (k : String) (h : lookupEntry l1 k = none) :
    lookupEntry (l1 ++ l2) k = lookupEntry l2 k := by
  induction l1 with
  | nil => simp
  | cons hd t ih =>
    obtain ⟨k', v⟩ := hd
    by_cases hk : k' = k
    · simp [lookupEntry, hk] at h
    · simp only [lookupEntry, hk, if_false, ite_false] at h ⊢
      simp [List.cons_append, lookupEntry, hk, ih h]

theorem lookupEntry_eraseKey_self (l : List (String × CacheEntry)) (k : String)
    (h : (l.map Prod.fst).Nodup) : lookupEntry (eraseKey l k) k = none := by
  induction l with
  | nil => simp [eraseKey, lookupEntry]
  | cons hd t ih =>
    obtain ⟨k', v⟩ := hd
    simp only [List.map_cons, List.nodup_cons] at h
    by_cases hk : k' = k
    · subst hk
      simp [eraseKey, lookupEntry_eq_none_iff, h.1]
    · simp [eraseKey, hk, lookupEntry, ih h.2]

theorem lookupEntry_mem (l : List (String × CacheEntry)) (k : String)
    (e : CacheEntry) (h : lookupEntry l k = some e) : (k, e) ∈ l := by
  induction l with
  | nil => simp [lookupEntry] at h
  | cons hd t ih =>
    obtain ⟨k', v⟩ := hd
    by_cases hk : k' = k
    · subst hk
      have hv : v = e := by simpa [lookupEntry] using h
      subst hv
      exact List.mem_cons_self _ _
    · simp only [lookupEntry, hk, if_false, ite_false] at h
      exact List.mem_cons_of_mem _ (ih h)

theorem setAll_append (now : Int) (l1 l2 : List (String × YouTubeTranscriptResult))
    (c : TranscriptCache) :
    setAll now (l1 ++ l2) c = setAll now l2 (setAll now l1 c) := by
  simp [setAll, List.foldl_append]

theorem map_fst_map_entry (g : YouTubeTranscriptResult → CacheEntry)
    (l : List (String × YouTubeTranscriptResult)) :
    (l.map fun q => (q.1, g q.2)).map Prod.fst = l.map Prod.fst := by
  induction l with
  | nil => rfl
  | cons hd t ih => simp [ih]

theorem lookupEntry_map_entry (g : YouTubeTranscriptResult → CacheEntry) :
    ∀ (l : List (String × YouTubeTranscriptResult))
      (p : String × YouTubeTranscriptResult),
      (l.map Prod.fst).Nodup → p ∈ l →
      lookupEntry (l.map fun q => (q.1, g q.2)) p.1 = some (g p.2) := by
  intro l
  induction l with
  | nil => intro p _ hp; simp at hp
  | cons hd t ih =>
    intro p hNodup hp
    simp only [List.map_cons, List.nodup_cons] at hNodup
    rcases List.mem_cons.mp hp with h | h
    · subst h; simp [lookupEntry]
    · have hne : hd.1 ≠ p.1 := by
        intro hEq
        exact hNodup.1 (hEq ▸ List.mem_map_of_mem Prod.fst h)
      simp [lookupEntry, hne, ih p hNodup.2 h]

theorem setAll_fresh (now : Int) :
    ∀ (kvs : List (String × YouTubeTranscriptResult)) (c : TranscriptCache),
      (∀ p ∈ kvs, p.2.error = none) →
      (∀ p ∈ kvs, lookupEntry c.entries p.1 = none) →
      (kvs.map Prod.fst).Nodup →
      c.entries.length + kvs.length ≤ c.maxSize →
      setAll now kvs c =
        { c with entries :=
            c.entries ++ kvs.map fun p => (p.1, ⟨p.2, now, now + c.ttl⟩) } := by
  intro kvs
  induction kvs with
  | nil => intro c _ _ _ _; simp [setAll]
  | cons x kvs' ih =>
    intro c hErr hFresh hNodup hLen
    have hx : x.2.error.isSome = false := by
      have := hErr x (List.mem_cons_self _ _)
      simp [this]
    have hxFresh : lookupEntry c.entries x.1 = none :=
      hFresh x (List.mem_cons_self _ _)
    have hNotMem : x.1 ∉ c.entries.map Prod.fst :=
      (lookupEntry_eq_none_iff _ _).mp hxFresh
    have hLt : ¬ c.maxSize ≤ c.entries.length := by
      simp only [List.length_cons] at hLen
      omega
    have hStep : cacheSet now x.1 x.2 c =
        { c with entries := c.entries ++ [(x.1, ⟨x.2, now, now + c.ttl⟩)] } := by
      simp [cacheSet, hx, hLt, mapSet_of_not_mem _ _ _ hNotMem]
    have hFold : setAll now (x :: kvs') c =
        setAll now kvs' (cacheSet now x.1 x.2 c) := by
      simp [setAll]
    simp only [List.map_cons, List.nodup_cons] at hNodup
    rw [hFold, hStep, ih _
      (fun p hp => hErr p (List.mem_cons_of_mem _ hp))
      (fun p hp => by
        rw [lookupEntry_append_of_none _ _ _ (hFresh p (List.mem_cons_of_mem _ hp))]
        have hne : x.1 ≠ p.1 := by
          intro hEq
          exact hNodup.1 (hEq ▸ List.mem_map_of_mem Prod.fst hp)
        simp [lookupEntry, hne])
      hNodup.2
      (by simp only [List.length_append, List.length_cons, List.length_nil] at hLen ⊢; omega)]
    simp

/-! ## Sample values used by the witness theorems -/

/-- A concrete metadata record. -/
def sampleInfo : YouTubeVideoInfo :=
  { videoId := "dQw4w9WgXcQ", title := "Sample", author := "Author"
    channelId := "chan", duration := 125, thumbnail := "thumb"
    url := "https://www.youtube.com/watch?v=dQw4w9WgXcQ"
    publishedAt := "2024-01-01T00:00:00.000Z", viewCount := 42
    likeCount := none, commentCount := none, description := "", tags := []
    categoryId := none, defaultLanguage := none, defaultAudioLanguage := none
    liveBroadcastContent := none, dimension := none, definition := none
    caption := none, licensedContent := none, projection := none }

/-- A concrete error-free result. -/
def sampleOk : YouTubeTranscriptResult :=
  { videoInfo := sampleInfo, transcript := [], fullText := "hello world"
    error := none }

/-- A concrete result carrying an error. -/
def sampleErr : YouTubeTranscriptResult :=
  { videoInfo := sampleInfo, transcript := [], fullText := ""
    error := some "No transcript available for this video" }

/-! ## Claim C3: set-then-get round trip; error results are never cached -/

/-- Claim C3.  For every video id and every `TranscriptResult`: storing an
error-free result and reading it back before its TTL expiry returns an
equal result; storing a result whose `error` is set leaves the cache
completely unchanged, so a later `get` for an id with no prior entry still
returns none. -/
theorem cache_set_get_roundtrip :
    ∀ (now now2 : Int) (id : String) (r : YouTubeTranscriptResult)
      (c : TranscriptCache),
      (r.error = none → ¬ now2 > now + c.ttl →
        (cacheGet now2 id (cacheSet now id r c)).1 = some r)
      ∧ (r.error.isSome = true →
          cacheSet now id r c = c ∧
          (lookupEntry c.entries id = none →
            cacheGet now2 id (cacheSet now id r c) = (none, c))) := by
  intro now now2 id r c
  constructor
  · intro hErr hTtl
    have hSome : r.error.isSome = false := by simp [hErr]
    simp only [cacheSet, hSome, Bool.false_eq_true, if_false, ite_false]
    simp [cacheGet, lookupEntry_mapSet_self, hTtl]
  · intro hErrSome
    have hSet : cacheSet now id r c = c := by simp [cacheSet, hErrSome]
    refine ⟨hSet, fun hNone => ?_⟩
    rw [hSet]
    simp [cacheGet, hNone]

/-- Witness for C3, at a concrete id, result and fresh cache. -/
theorem cache_set_get_roundtrip_witness :
    (cacheGet 5 "vid" (cacheSet 0 "vid" sampleOk (mkCache 100 86400000))).1 =
      some sampleOk ∧
    cacheSet 0 "vid" sampleErr (mkCache 100 86400000) = mkCache 100 86400000 :=
  ⟨(cache_set_get_roundtrip 0 5 "vid" sampleOk (mkCache 100 86400000)).1 rfl
      (by decide),
    ((cache_set_get_roundtrip 0 5 "vid" sampleErr (mkCache 100 86400000)).2
      rfl).1⟩

/-! ## Claim C9: the LRU touch preserves the entry, including its expiry -/

/-- Claim C9.  Reading an unexpired entry returns its result and re-inserts
the same entry object unchanged — same `timestamp`, same `expiresAt` — so a
read changes eviction order but never extends the TTL, and the entry is
unreachable after its original expiry time no matter how often it was
read. -/
theorem cache_get_preserves_entry :
    ∀ (now : Int) (id : String) (c : TranscriptCache) (e : CacheEntry),
      (c.entries.map Prod.fst).Nodup →
      lookupEntry c.entries id = some e →
      ¬ now > e.expiresAt →
      (cacheGet now id c).1 = some e.result ∧
      lookupEntry ((cacheGet now id c).2).entries id = some e ∧
      (∀ now2 : Int, now2 > e.expiresAt →
        (cacheGet now2 id ((cacheGet now id c).2)).1 = none) := by
  intro now id c e hNodup hLook hExp
  have hGet : cacheGet now id c =
      (some e.result, { c with entries := eraseKey c.entries id ++ [(id, e)] }) := by
    simp [cacheGet, hLook, hExp]
  have hLook2 : lookupEntry (eraseKey c.entries id ++ [(id, e)]) id = some e := by
    rw [lookupEntry_append_of_none _ _ _ (lookupEntry_eraseKey_self _ _ hNodup)]
    simp [lookupEntry]
  rw [hGet]
  refine ⟨rfl, hLook2, ?_⟩
  intro now2 h2
  simp [cacheGet, hLook2, h2]

/-- Witness for C9, at a concrete one-entry cache. -/
theorem cache_get_preserves_entry_witness :
    (cacheGet 5 "vid" ⟨[("vid", ⟨sampleOk, 0, 1000⟩)], 100, 0⟩).1 =
      some sampleOk ∧
    lookupEntry ((cacheGet 5 "vid"
        ⟨[("vid", ⟨sampleOk, 0, 1000⟩)], 100, 0⟩).2).entries "vid" =
      some ⟨sampleOk, 0, 1000⟩ := by
  have h := cache_get_preserves_entry 5 "vid"
    ⟨[("vid", ⟨sampleOk, 0, 1000⟩)], 100, 0⟩ ⟨sampleOk, 0, 1000⟩
    (by decide) rfl (by decide)
  exact ⟨h.1, h.2.1⟩

/-! ## Claim C8: replacing a key in a full cache evicts the LRU entry -/

/-- Claim C8.  A `set` of an error-free result for a key that is already
present while the cache is at capacity still deletes the current
least-recently-used (iteration-order-first) entry — here a key different
from the one being replaced — before writing, so the replacement evicts an
unrelated entry even though it does not grow the map. -/
theorem cache_replace_full_evicts_unrelated :
    ∀ (now ttl : Int) (id k0 : String) (e0 eOld : CacheEntry)
      (rest : List (String × CacheEntry)) (r : YouTubeTranscriptResult)
      (maxSize : Nat),
      r.error = none →
      k0 ∉ rest.map Prod.fst →
      lookupEntry rest id = some eOld →
      rest.length + 1 = maxSize →
      lookupEntry (cacheSet now id r
        ⟨(k0, e0) :: rest, maxSize, ttl⟩).entries k0 = none ∧
      lookupEntry (cacheSet now id r
        ⟨(k0, e0) :: rest, maxSize, ttl⟩).entries id = some ⟨r, now, now + ttl⟩ := by
  intro now ttl id k0 e0 eOld rest r maxSize hErr hK0 hLook hLen
  have hSome : r.error.isSome = false := by simp [hErr]
  have hIdMem : id ∈ rest.map Prod.fst :=
    List.mem_map_of_mem Prod.fst (lookupEntry_mem _ _ _ hLook)
  have hCond : maxSize ≤ rest.length + 1 := le_of_eq hLen.symm
  have hSet : cacheSet now id r ⟨(k0, e0) :: rest, maxSize, ttl⟩ =
      ⟨mapSet rest id ⟨r, now, now + ttl⟩, maxSize, ttl⟩ := by
    simp [cacheSet, hSome, hCond]
  rw [hSet]
  constructor
  · rw [lookupEntry_eq_none_iff, mapSet_map_fst_of_mem _ _ _ hIdMem]
    exact hK0
  · exact lookupEntry_mapSet_self _ _ _

/-- Witness for C8, at a concrete full two-entry cache where the replaced
key is not the least-recently-used one. -/
theorem cache_replace_full_evicts_unrelated_witness :
    lookupEntry (cacheSet 7 "vid" sampleOk
      ⟨[("old", ⟨sampleOk, 0, 9⟩), ("vid", ⟨sampleOk, 0, 9⟩)], 2, 50⟩).entries
      "old" = none ∧
    lookupEntry (cacheSet 7 "vid" sampleOk
      ⟨[("old", ⟨sampleOk, 0, 9⟩), ("vid", ⟨sampleOk, 0, 9⟩)], 2, 50⟩).entries
      "vid" = some ⟨sampleOk, 7, 7 + 50⟩ :=
  cache_replace_full_evicts_unrelated 7 50 "vid" "old" ⟨sampleOk, 0, 9⟩
    ⟨sampleOk, 0, 9⟩ [("vid", ⟨sampleOk, 0, 9⟩)] sampleOk 2 rfl (by decide)
    rfl rfl

/-! ## Claim C4: capacity eviction removes exactly the LRU entry, and a
read in between changes the eviction order -/

/-- Claim C4.  First conjunct: starting from an empty cache of capacity
`cap`, a sequence of `cap + 1` `set` operations with distinct keys and
error-free results (no expiry in between) evicts exactly the first
(least-recently-accessed) entry and leaves every other entry retrievable.
Second conjunct: on a full two-entry cache, a `get` of the
iteration-order-first entry between two `set`s moves it to
most-recently-used position, so the next capacity eviction removes the
other entry instead — the read changes which entry is evicted. -/
theorem cache_lru_eviction :
    ∀ (cap : Nat) (ttl now : Int),
      (∀ (k0 : String) (r0 : YouTubeTranscriptResult)
        (rest : List (String × YouTubeTranscriptResult)),
        1 ≤ cap → rest.length = cap →
        (((k0, r0) :: rest).map Prod.fst).Nodup →
        (∀ p ∈ (k0, r0) :: rest, p.2.error = none) →
        lookupEntry (setAll now ((k0, r0) :: rest) (mkCache cap ttl)).entries k0 =
          none ∧
        ∀ p ∈ rest,
          lookupEntry (setAll now ((k0, r0) :: rest) (mkCache cap ttl)).entries p.1 =
            some ⟨p.2, now, now + ttl⟩)
      ∧ (∀ (a b cNew : String) (ea eb : CacheEntry) (r : YouTubeTranscriptResult),
          a ≠ b → cNew ≠ a → cNew ≠ b → r.error = none → ¬ now > ea.expiresAt →
          lookupEntry (cacheSet now cNew r
            ⟨[(a, ea), (b, eb)], 2, ttl⟩).entries a = none ∧
          lookupEntry (cacheSet now cNew r
            ((cacheGet now a ⟨[(a, ea), (b, eb)], 2, ttl⟩).2)).entries a =
            some ea ∧
          lookupEntry (cacheSet now cNew r
            ((cacheGet now a ⟨[(a, ea), (b, eb)], 2, ttl⟩).2)).entries b = none) := by
  intro cap ttl now
  constructor
  · intro k0 r0 rest hCap hLen hNodup hErr
    have hne : rest ≠ [] := by
      intro h
      rw [h] at hLen
      simp at hLen
      omega
    have hSplit : rest.dropLast ++ [rest.getLast hne] = rest :=
      List.dropLast_append_getLast hne
    have hKeys : (k0 :: rest.map Prod.fst).Nodup := by
      simpa using hNodup
    have hRestKeys : (rest.map Prod.fst).Nodup := (List.nodup_cons.mp hKeys).2
    have hK0NotMem : k0 ∉ rest.map Prod.fst := (List.nodup_cons.mp hKeys).1
    have hSplitKeys : rest.map Prod.fst =
        rest.dropLast.map Prod.fst ++ [(rest.getLast hne).1] := by
      conv_lhs => rw [← hSplit]
      simp
    have hLastNotMem : (rest.getLast hne).1 ∉ rest.dropLast.map Prod.fst := by
      rw [hSplitKeys] at hRestKeys
      rcases (List.nodup_append.mp hRestKeys) with ⟨_, _, hDisj⟩
      intro hMem
      exact hDisj hMem (List.mem_singleton_self _)
    have hFrontSub : ∀ p ∈ (k0, r0) :: rest.dropLast, p ∈ (k0, r0) :: rest := by
      intro p hp
      rcases List.mem_cons.mp hp with h | h
      · exact h ▸ List.mem_cons_self _ _
      · exact List.mem_cons_of_mem _ (List.dropLast_subset _ h)
    have hFrontNodup : (((k0, r0) :: rest.dropLast).map Prod.fst).Nodup := by
      simp only [List.map_cons, List.nodup_cons]
      constructor
      · intro hMem
        exact hK0NotMem (List.map_subset Prod.fst (List.dropLast_subset _)
          hMem)
      · rw [hSplitKeys] at hRestKeys
        exact (List.nodup_append.mp hRestKeys).1
    have hFrontLen : ((k0, r0) :: rest.dropLast).length = cap := by
      simp only [List.length_cons, List.length_dropLast]
      omega
    have hFrontEq : setAll now ((k0, r0) :: rest.dropLast) (mkCache cap ttl) =
        ⟨((k0, r0) :: rest.dropLast).map fun p => (p.1, ⟨p.2, now, now + ttl⟩),
          cap, ttl⟩ := by
      rw [setAll_fresh now _ _
        (fun p hp => hErr p (hFrontSub p hp))
        (fun p _ => by simp [mkCache, lookupEntry])
        hFrontNodup
        (by simp [mkCache, hFrontLen])]
      simp [mkCache]
    have hWhole : (k0, r0) :: rest = ((k0, r0) :: rest.dropLast) ++ [rest.getLast hne] := by
      conv_lhs => rw [← hSplit]
      rw [List.cons_append]
    have hLastErr : (rest.getLast hne).2.error.isSome = false := by
      have := hErr _ (List.mem_cons_of_mem _ (List.getLast_mem hne))
      simp [this]
    have hFinal : setAll now ((k0, r0) :: rest) (mkCache cap ttl) =
        ⟨rest.map fun p => (p.1, ⟨p.2, now, now + ttl⟩), cap, ttl⟩ := by
      rw [hWhole, setAll_append, hFrontEq]
      have hCapLe : cap ≤ (((k0, r0) :: rest.dropLast).map
          fun p => (p.1, (⟨p.2, now, now + ttl⟩ : CacheEntry))).length := by
        simp only [List.length_map, List.length_cons, List.length_dropLast]
        omega
      simp only [setAll, List.foldl_cons, List.foldl_nil]
      rw [show cacheSet now (rest.getLast hne).1 (rest.getLast hne).2
          (⟨((k0, r0) :: rest.dropLast).map fun p => (p.1, ⟨p.2, now, now + ttl⟩),
            cap, ttl⟩ : TranscriptCache) =
          ⟨rest.map fun p => (p.1, ⟨p.2, now, now + ttl⟩), cap, ttl⟩ from ?_]
      simp only [cacheSet, hLastErr, Bool.false_eq_true, if_false, ite_false]
      have hTail : (((k0, r0) :: rest.dropLast).map
          fun p => (p.1, (⟨p.2, now, now + ttl⟩ : CacheEntry))).tail =
          rest.dropLast.map fun p => (p.1, ⟨p.2, now, now + ttl⟩) := by
        simp
      have hNotMemMap : (rest.getLast hne).1 ∉
          (rest.dropLast.map fun p => (p.1, (⟨p.2, now, now + ttl⟩ : CacheEntry))).map
            Prod.fst := by
        rw [map_fst_map_entry (fun q => ⟨q, now, now + ttl⟩)]
        exact hLastNotMem
      simp only [ge_iff_le, hCapLe, if_true, ite_true, hTail]
      rw [mapSet_of_not_mem _ _ _ hNotMemMap]
      conv_rhs => rw [← hSplit]
      simp
    rw [hFinal]
    constructor
    · rw [lookupEntry_eq_none_iff, map_fst_map_entry (fun q => ⟨q, now, now + ttl⟩)]
      exact hK0NotMem
    · intro p hp
      exact lookupEntry_map_entry (fun q => ⟨q, now, now + ttl⟩) rest p hRestKeys hp
  · intro a b cNew ea eb r hab hca hcb hErr hExp
    have hSome : r.error.isSome = false := by simp [hErr]
    have hSet1 : cacheSet now cNew r ⟨[(a, ea), (b, eb)], 2, ttl⟩ =
        ⟨[(b, eb), (cNew, ⟨r, now, now + ttl⟩)], 2, ttl⟩ := by
      simp [cacheSet, hSome, mapSet, Ne.symm hcb]
    have hGetA : cacheGet now a ⟨[(a, ea), (b, eb)], 2, ttl⟩ =
        (some ea.result, ⟨[(b, eb), (a, ea)], 2, ttl⟩) := by
      simp [cacheGet, lookupEntry, eraseKey, hExp]
    have hSet2 : cacheSet now cNew r (⟨[(b, eb), (a, ea)], 2, ttl⟩ : TranscriptCache) =
        ⟨[(a, ea), (cNew, ⟨r, now, now + ttl⟩)], 2, ttl⟩ := by
      simp [cacheSet, hSome, mapSet, Ne.symm hca]
    refine ⟨?_, ?_, ?_⟩
    · rw [hSet1]
      simp [lookupEntry, Ne.symm hab, hca]
    · rw [hGetA, hSet2]
      simp [lookupEntry]
    · rw [hGetA, hSet2]
      simp [lookupEntry, hab, hcb]

/-- Witness for C4, at capacity two with three distinct keys, including the
read-between-writes scenario. -/
theorem cache_lru_eviction_witness :
    lookupEntry (setAll 0 [("k0", sampleOk), ("k1", sampleOk), ("k2", sampleOk)]
      (mkCache 2 100)).entries "k0" = none ∧
    lookupEntry (cacheSet 0 "c" sampleOk
      ⟨[("a", ⟨sampleOk, 0, 9⟩), ("b", ⟨sampleOk, 0, 9⟩)], 2, 100⟩).entries "a" =
      none ∧
    lookupEntry (cacheSet 0 "c" sampleOk
      ((cacheGet 0 "a"
        ⟨[("a", ⟨sampleOk, 0, 9⟩), ("b", ⟨sampleOk, 0, 9⟩)], 2, 100⟩).2)).entries
      "a" = some ⟨sampleOk, 0, 9⟩ := by
  have h := cache_lru_eviction 2 100 0
  refine ⟨?_, ?_, ?_⟩
  · exact (h.1 "k0" sampleOk [("k1", sampleOk), ("k2", sampleOk)]
      (by decide) rfl (by decide) (by decide)).1
  · exact (h.2 "a" "b" "c" ⟨sampleOk, 0, 9⟩ ⟨sampleOk, 0, 9⟩ sampleOk
      (by decide) (by decide) (by decide) rfl (by decide)).1
  · exact (h.2 "a" "b" "c" ⟨sampleOk, 0, 9⟩ ⟨sampleOk, 0, 9⟩ sampleOk
      (by decide) (by decide) (by decide) rfl (by decide)).2.1

/-! ## Claim C5: the sliding-window rate limiter -/

theorem recordAll_requests (wMs : Int) (maxR : Nat) (now : Int) :
    ∀ (ts : List Int) (acc : List Int),
      (∀ x ∈ acc, now - wMs < x) →
      (∀ t ∈ ts, now - wMs < t ∧ t ≤ now) →
      recordAll ts ⟨acc, maxR, wMs⟩ = ⟨acc ++ ts, maxR, wMs⟩ := by
  intro ts
  induction ts with
  | nil => intro acc _ _; simp [recordAll]
  | cons t ts' ih =>
    intro acc hAcc hTs
    have hT := hTs t (List.mem_cons_self _ _)
    have hClean : acc.filter (fun x => decide (x > t - wMs)) = acc := by
      rw [List.filter_eq_self]
      intro x hx
      have hxw := hAcc x hx
      simp only [decide_eq_true_eq, gt_iff_lt]
      omega
    have hStep : recordRequest t ⟨acc, maxR, wMs⟩ = ⟨acc ++ [t], maxR, wMs⟩ := by
      simp [recordRequest, cleanup, hClean]
    have hFold : recordAll (t :: ts') ⟨acc, maxR, wMs⟩ =
        recordAll ts' (recordRequest t ⟨acc, maxR, wMs⟩) := by
      simp [recordAll]
    rw [hFold, hStep, ih (acc ++ [t])
      (by
        intro x hx
        rcases List.mem_append.mp hx with h | h
        · exact hAcc x h
        · rw [List.mem_singleton.mp h]; omega)
      (fun u hu => hTs u (List.mem_cons_of_mem _ hu))]
    simp

/-- Claim C5.  Starting from a fresh limiter, with all recorded timestamps
inside the sliding window of the observation time `now`,
`canMakeRequest` is true exactly while fewer than `maxRequests` calls to
`recordRequest` have occurred, and false once exactly `maxRequests` have;
once `windowMs` has elapsed past every recorded timestamp with no further
calls, `canMakeRequest` returns true again. -/
theorem rate_limiter_window :
    ∀ (maxR : Nat) (wMs : Int) (ts : List Int) (now : Int),
      0 < maxR →
      (∀ t ∈ ts, now - wMs < t ∧ t ≤ now) →
      (canMakeRequest now (recordAll ts ⟨[], maxR, wMs⟩)).1 =
        decide (ts.length < maxR)
      ∧ ∀ now2 : Int, (∀ t ∈ ts, t ≤ now2 - wMs) →
          (canMakeRequest now2 (recordAll ts ⟨[], maxR, wMs⟩)).1 = true := by
  intro maxR wMs ts now hPos hTs
  have hAll : recordAll ts ⟨[], maxR, wMs⟩ = ⟨ts, maxR, wMs⟩ :=
    recordAll_requests wMs maxR now ts [] (by intro x hx; simp at hx) hTs
  rw [hAll]
  constructor
  · have hKeep : ts.filter (fun t => decide (t > now - wMs)) = ts := by
      rw [List.filter_eq_self]
      intro t ht
      have := (hTs t ht).1
      simp only [decide_eq_true_eq, gt_iff_lt]
      omega
    simp [canMakeRequest, cleanup, hKeep]
  · intro now2 h2
    have hDrop : ts.filter (fun t => decide (t > now2 - wMs)) = [] := by
      rw [List.filter_eq_nil_iff]
      intro t ht
      have := h2 t ht
      simp only [decide_eq_true_eq, gt_iff_lt, not_lt]
      omega
    simp [canMakeRequest, cleanup, hDrop, hPos]

/-- Witness for C5: two requests exhaust a ceiling of two inside the
window, and the limiter recovers once the window has passed. -/
theorem rate_limiter_window_witness :
    (canMakeRequest 1 (recordAll [0, 1] ⟨[], 2, 10⟩)).1 = false ∧
    (canMakeRequest 11 (recordAll [0, 1] ⟨[], 2, 10⟩)).1 = true := by
  have h := rate_limiter_window 2 10 [0, 1] 1 (by decide) (by decide)
  exact ⟨by simpa using h.1, h.2 11 (by decide)⟩

/-! ## Claim C2: invalid URLs yield the fixed error result and leave the
cache untouched -/

/-- A concrete environment for the witnesses of the orchestrator claims. -/
def sampleEnv : ExtractEnv :=
  { now := 0, nowIso := "2024-01-01T00:00:00.000Z", fetchInfo := none
    fetchTranscriptRes := Except.error "Failed to fetch transcript"
    fetchInfoRetry := none }

/-- Claim C2.  `extractYouTubeTranscript` never throws (it is a total
function of its inputs; every fallible sub-call is caught in the source),
and on any input from which no video id can be extracted it returns the
`Invalid YouTube URL` result — empty segments, empty text, placeholder
metadata carrying the raw input URL — and returns the cache exactly as it
received it, so no new entry appears. -/
theorem invalid_url_result :
    ∀ (env : ExtractEnv) (url : String) (c : TranscriptCache),
      extractYouTubeVideoId url = none →
      extractYouTubeTranscript env url c = (invalidResult env url, c) ∧
      (invalidResult env url).error = some "Invalid YouTube URL" ∧
      (invalidResult env url).transcript = [] ∧
      (invalidResult env url).fullText = "" ∧
      (invalidResult env url).videoInfo.url = url := by
  intro env url c h
  refine ⟨?_, rfl, rfl, rfl, rfl⟩
  simp [extractYouTubeTranscript, h]

/-- Witness for C2 at a concrete unparseable input. -/
theorem invalid_url_result_witness :
    extractYouTubeTranscript sampleEnv "not a youtube link" (mkCache 100 86400000) =
      (invalidResult sampleEnv "not a youtube link", mkCache 100 86400000) :=
  (invalid_url_result sampleEnv "not a youtube link" (mkCache 100 86400000)
    (by decide)).1

/-! ## Claim C6: every result with an error has empty segments and text -/

/-- Claim C6.  Under the cache well-formedness invariant maintained by
`cacheSet` (only error-free results are ever stored), every
`TranscriptResult` produced by `extractYouTubeTranscript` whose `error`
field is set has an empty transcript sequence and an empty `fullText`. -/
theorem error_result_empty :
    ∀ (env : ExtractEnv) (url : String) (c : TranscriptCache),
      (∀ p ∈ c.entries, p.2.result.error = none) →
      ((extractYouTubeTranscript env url c).1.error).isSome = true →
      (extractYouTubeTranscript env url c).1.transcript = [] ∧
      (extractYouTubeTranscript env url c).1.fullText = "" := by
  intro env url c hWf hSome
  rcases hVid : extractYouTubeVideoId url with _ | vid
  · simp [extractYouTubeTranscript, hVid, invalidResult]
  · rcases hGet : cacheGet env.now vid c with ⟨res?, c1⟩
    rcases res? with _ | r
    · have hEq : extractYouTubeTranscript env url c = extractFetch env vid c1 := by
        simp [extractYouTubeTranscript, hVid, hGet]
      rw [hEq] at hSome ⊢
      rcases hInfo : env.fetchInfo with _ | info <;>
        rcases hTr : env.fetchTranscriptRes with e | tr
      all_goals simp [extractFetch, hInfo, hTr, errorPathResult]
      all_goals simp [extractFetch, hInfo, hTr] at hSome
    · have hEq : extractYouTubeTranscript env url c = (r, c1) := by
        simp [extractYouTubeTranscript, hVid, hGet]
      have hFromCache : ∃ e, (vid, e) ∈ c.entries ∧ e.result = r := by
        rcases hLook : lookupEntry c.entries vid with _ | entry
        · simp [cacheGet, hLook] at hGet
        · by_cases hexp : env.now > entry.expiresAt
          · simp [cacheGet, hLook, hexp] at hGet
          · refine ⟨entry, lookupEntry_mem _ _ _ hLook, ?_⟩
            simp [cacheGet, hLook, hexp] at hGet
            exact hGet.1
      obtain ⟨e, hMem, hRes⟩ := hFromCache
      have hErrFree : r.error = none := hRes ▸ hWf (vid, e) hMem
      rw [hEq] at hSome
      simp [hErrFree] at hSome

/-- Witness for C6, at an invalid URL against an empty (well-formed)
cache. -/
theorem error_result_empty_witness :
    (extractYouTubeTranscript sampleEnv "hi" (mkCache 100 86400000)).1.transcript =
      [] ∧
    (extractYouTubeTranscript sampleEnv "hi" (mkCache 100 86400000)).1.fullText =
      "" :=
  error_result_empty sampleEnv "hi" (mkCache 100 86400000)
    (by intro p hp; simp [mkCache] at hp) (by decide)

/-! ## Claim C1: event ordering of one agent invocation -/

theorem emitStreamEvents_map_chunk {σ : Type} (chunks : List String) :
    emitStreamEvents (σ := σ) (chunks.map ChainStreamEvent.streamChunk) =
      chunks.map AgentEvent.response := by
  induction chunks with
  | nil => rfl
  | cons c t ih =>
    simp only [List.map_cons, emitStreamEvents, List.filterMap_cons] at ih ⊢
    rw [ih]

/-- Claim C1.  For an invocation whose URL list contains at least one URL
whose extraction outcome is error-free, and whose generator stream is the
normal chunk sequence (at least one chunk followed by the single chain-end
event), the emitted sequence is exactly: one `sources` event whose array
has one entry per error-free result in input URL order, then the response
events in chunk order, then exactly one `end` event — so no `response`
precedes the `sources` event and no `error` event occurs at all, in
particular not after `end`. -/
theorem agent_event_order :
    ∀ (extractOutcome : String → YouTubeTranscriptResult) (urls : List String)
      (chunks : List String),
      (∃ u ∈ urls, (extractOutcome u).error = none) →
      chunks ≠ [] →
      processYouTubeSearch extractOutcome urls
        (chunks.map ChainStreamEvent.streamChunk ++ [ChainStreamEvent.chainEnd]) =
        AgentEvent.sources
          (((urls.map extractOutcome).filter fun r => r.error.isNone).map
            mkSourceFallback)
          :: (chunks.map AgentEvent.response ++ [AgentEvent.endEvent]) := by
  intro extractOutcome urls chunks hOk hChunks
  obtain ⟨u, hu, hErr⟩ := hOk
  have hUrls : 0 < urls.length := List.length_pos.mpr (by
    intro h
    rw [h] at hu
    simp at hu)
  have hMemOk : extractOutcome u ∈
      (urls.map extractOutcome).filter fun r => r.error.isNone := by
    rw [List.mem_filter]
    exact ⟨List.mem_map_of_mem _ hu, by simp [hErr]⟩
  have hOkLen : 0 <
      ((urls.map extractOutcome).filter fun r => r.error.isNone).length :=
    List.length_pos.mpr (by
      intro h
      rw [h] at hMemOk
      simp at hMemOk)
  have hStream : emitStreamEvents (σ := AgentSource)
      (chunks.map ChainStreamEvent.streamChunk ++ [ChainStreamEvent.chainEnd]) =
      chunks.map AgentEvent.response ++ [AgentEvent.endEvent] := by
    have h1 := emitStreamEvents_map_chunk (σ := AgentSource) chunks
    simp only [emitStreamEvents, List.filterMap_append] at h1 ⊢
    rw [h1]
    rfl
  simp only [processYouTubeSearch, agentCore, hUrls, if_true, hOkLen, hStream]

/-- Witness for C1, at one URL with an error-free outcome and a one-chunk
stream. -/
theorem agent_event_order_witness :
    processYouTubeSearch (fun _ => sampleOk) ["https://youtu.be/dQw4w9WgXcQ"]
      ((["Hello"].map ChainStreamEvent.streamChunk) ++ [ChainStreamEvent.chainEnd]) =
      AgentEvent.sources
        (((["https://youtu.be/dQw4w9WgXcQ"].map fun _ => sampleOk).filter
          fun r => r.error.isNone).map mkSourceFallback)
        :: (["Hello"].map AgentEvent.response ++ [AgentEvent.endEvent]) :=
  agent_event_order (fun _ => sampleOk) ["https://youtu.be/dQw4w9WgXcQ"] ["Hello"]
    ⟨"https://youtu.be/dQw4w9WgXcQ", by simp, rfl⟩ (by simp)

/-! ## Claim C7: events must not be emitted before the call returns -/

/-- Claim C7 fails on the inline agent variant
(`src/lib/search/youtubeTranscriptAgent.ts`): its async `searchAndAnswer`
awaits the whole orchestration before `return emitter`, so every event —
here the no-URL `response` and `end` for the message
`hello, how are you?` (no YouTube URLs) — is emitted during the call,
before a caller could attach listeners; nothing remains afterwards.  The
deferred variant (`part_005`), which wraps the body in `setImmediate`
precisely "so event listeners can be set up", emits nothing during the
call and the entire sequence after returning, as the claim demands. -/
theorem inline_variant_emits_before_return :
    inlineEmittedDuringCall (fun _ => sampleOk) [] [] =
      [AgentEvent.response noUrlMsg, AgentEvent.endEvent] ∧
    inlineEmittedDuringCall (fun _ => sampleOk) [] [] ≠ [] ∧
    (∀ (extractOutcome : String → YouTubeTranscriptResult) (urls : List String)
      (stream : List ChainStreamEvent),
      deferredEmittedDuringCall extractOutcome urls stream = [] ∧
      deferredEmittedAfterReturn extractOutcome urls stream =
        processYouTubeSearch extractOutcome urls stream) := by
  refine ⟨rfl, ?_, fun _ _ _ => ⟨rfl, rfl⟩⟩
  intro h
  simp [inlineEmittedDuringCall, agentCore] at h

/-! ## Backtracking lemmas for the regex model -/

theorem manyG_none (p : Char → Bool) (k : List Char → Option (List Char)) :
    ∀ (cs : List Char), (∀ l, l <:+ cs → k l = none) → manyG p k cs = none := by
  intro cs
  induction cs with
  | nil =>
    intro h
    simpa [manyG] using h [] (List.suffix_refl _)
  | cons c t ih =>
    intro h
    by_cases hp : p c = true
    · simp only [manyG, hp, if_true, ite_true]
      rw [ih (fun l hl => h l (hl.trans (List.suffix_cons c t))),
        h (c :: t) (List.suffix_refl _)]
      rfl
    · simp only [manyG, hp, if_false, ite_false]
      exact h (c :: t) (List.suffix_refl _)

theorem manyG_stop (p : Char → Bool) (k : List Char → Option (List Char))
    (v : List Char) :
    ∀ (b : List Char), (∀ l, l <:+ b → l.length < b.length → k l = none) →
      k b = some v → manyG p k b = some v := by
  intro b
  cases b with
  | nil =>
    intro _ hb
    simpa [manyG] using hb
  | cons c t =>
    intro hFail hb
    by_cases hp : p c = true
    · simp only [manyG, hp, if_true, ite_true]
      have ht : manyG p k t = none := by
        apply manyG_none
        intro l hl
        refine hFail l (hl.trans (List.suffix_cons c t)) ?_
        have := hl.length_le
        simp only [List.length_cons]
        omega
      rw [ht, hb]
      rfl
    · simp only [manyG, hp, if_false, ite_false]
      exact hb

theorem manyG_from (p : Char → Bool) (k : List Char → Option (List Char))
    (v : List Char) :
    ∀ (a b : List Char), (∀ c ∈ a, p c = true) →
      (∀ l, l <:+ b → l.length < b.length → k l = none) → k b = some v →
      manyG p k (a ++ b) = some v := by
  intro a
  induction a with
  | nil =>
    intro b _ h2 h3
    simpa using manyG_stop p k v b h2 h3
  | cons x a' ih =>
    intro b hA hFail hb
    have hx : p x = true := hA x (List.mem_cons_self _ _)
    simp only [List.cons_append, manyG, hx, if_true, ite_true]
    change ob (manyG p k (a' ++ b)) (k (x :: (a' ++ b))) = some v
    rw [ih b (fun c hc => hA c (List.mem_cons_of_mem _ hc)) hFail hb]
    rfl

theorem many1_none (p : Char → Bool) (k : List Char → Option (List Char))
    (cs : List Char) (h : ∀ l, l <:+ cs → k l = none) : many1 p k cs = none := by
  cases cs with
  | nil => rfl
  | cons c t =>
    by_cases hp : p c = true
    · simp only [many1, hp, if_true, ite_true]
      exact manyG_none p k t (fun l hl => h l (hl.trans (List.suffix_cons c t)))
    · simp [many1, hp]

theorem hostAlt1_none (cs : List Char) (h : '/' ∉ cs) : hostAlt1 cs = none := by
  apply many1_none
  intro l hl
  cases l with
  | nil => rfl
  | cons c l' =>
    have hc : c ∈ cs := hl.subset (List.mem_cons_self _ _)
    have hne : ('/' : Char) ≠ c := fun hEq => h (hEq ▸ hc)
    simp [lit, hne]

theorem idChar_not_query (c : Char) (h : isIdChar c = true) :
    (c == '?' || c == '&') = false := by
  have h2 : (c == '"' || c == '&' || c == '?' || c == '/' || isJsSpace c) = false := by
    simpa [isIdChar] using h
  simp only [Bool.or_eq_false_iff] at h2
  rw [h2.1.1.2, h2.1.1.1.2]
  rfl

/-! ## Claim C10: over-length id tokens in URL position are truncated -/

/-- The characters of the watch-URL prefix `youtube.com/watch?v=`. -/
def watchUrlChars : List Char :=
  ['y', 'o', 'u', 't', 'u', 'b', 'e', '.', 'c', 'o', 'm', '/',
   'w', 'a', 't', 'c', 'h', '?', 'v', '=']

/-- Claim C10.  For a watch URL whose `v=` token consists of more than
eleven id-class characters, `extractYouTubeVideoId` does not reject the
input: the eleven-character capture group matches the first eleven
characters of the token, so the over-length token is truncated to its
first eleven characters. -/
theorem extract_id_truncates_overlong :
    ∀ (t : List Char), 11 < t.length → (∀ c ∈ t, isIdChar c = true) →
      extractYouTubeVideoId ⟨watchUrlChars ++ t⟩ = some ⟨t.take 11⟩ := by
  intro t hLen hId
  have hCap : capture11 t = some (t.take 11) := by
    have h1 : (t.take 11).length = 11 := by
      rw [List.length_take]
      omega
    have h2 : (t.take 11).all isIdChar = true := by
      rw [List.all_eq_true]
      intro c hc
      exact hId c (List.take_subset _ _ hc)
    simp [capture11, h1, h2]
  have hKb : qMarkCont ('?' :: 'v' :: '=' :: t) = some (t.take 11) := by
    simp [qMarkCont, lit, hCap]
  have hFail : ∀ l, l <:+ ('?' :: 'v' :: '=' :: t) →
      l.length < ('?' :: 'v' :: '=' :: t).length → qMarkCont l = none := by
    intro l hl hlen
    cases l with
    | nil => rfl
    | cons c l' =>
      have hl2 : (c :: l') <:+ ('v' :: '=' :: t) := by
        rcases List.suffix_cons_iff.mp hl with h | h
        · exfalso
          rw [h] at hlen
          omega
        · exact h
      have hc : c ∈ 'v' :: '=' :: t := hl2.subset (List.mem_cons_self _ _)
      have hcq : (c == '?' || c == '&') = false := by
        rcases List.mem_cons.mp hc with h | h
        · subst h; rfl
        · rcases List.mem_cons.mp h with h2 | h2
          · subst h2; rfl
          · exact idChar_not_query c (hId c h2)
      simp [qMarkCont, hcq]
  have hA3 : hostAlt3 ('w' :: 'a' :: 't' :: 'c' :: 'h' :: '?' :: 'v' :: '=' :: t) =
      some (t.take 11) := by
    have := manyG_from (fun c => !(c == '\n')) qMarkCont (t.take 11)
      ['w', 'a', 't', 'c', 'h'] ('?' :: 'v' :: '=' :: t) (by decide) hFail hKb
    simpa [hostAlt3] using this
  have hNoSlash : ('/' : Char) ∉ ('w' :: 'a' :: 't' :: 'c' :: 'h' :: '?' :: 'v' :: '=' :: t) := by
    intro hm
    simp only [List.mem_cons] at hm
    rcases hm with h | h | h | h | h | h | h | h | h
    all_goals first
      | exact absurd h (by decide)
      | · have := hId '/' h
          exact absurd this (by decide)
  have hA1 : hostAlt1 ('w' :: 'a' :: 't' :: 'c' :: 'h' :: '?' :: 'v' :: '=' :: t) = none :=
    hostAlt1_none _ hNoSlash
  have hA2 : hostAlt2 ('w' :: 'a' :: 't' :: 'c' :: 'h' :: '?' :: 'v' :: '=' :: t) = none := by
    simp [hostAlt2, lit, ob]
  have hAfter : afterHost ('w' :: 'a' :: 't' :: 'c' :: 'h' :: '?' :: 'v' :: '=' :: t) =
      some (t.take 11) := by
    simp [afterHost, hA1, hA2, hA3, ob]
  have hTry : tryAt (watchUrlChars ++ t) = some (t.take 11) := by
    simp only [watchUrlChars, List.cons_append, List.nil_append]
    simp [tryAt, lit, ytHost, ytShort, ob, hAfter]
  have hFind : findCapture (watchUrlChars ++ t) = some (t.take 11) := by
    simp only [watchUrlChars, List.cons_append, List.nil_append]
    rw [findCapture]
    simp only [watchUrlChars, List.cons_append, List.nil_append] at hTry
    rw [hTry]
    rfl
  show (extractIdChars (watchUrlChars ++ t)).map String.mk = some ⟨t.take 11⟩
  rw [extractIdChars, hFind]
  rfl

/-- Witness for C10, at a twelve-character token. -/
theorem extract_id_truncates_overlong_witness :
    extractYouTubeVideoId
      ⟨watchUrlChars ++ ['d', 'Q', 'w', '4', 'w', '9', 'W', 'g', 'X', 'c', 'Q', '2']⟩ =
      some ⟨(['d', 'Q', 'w', '4', 'w', '9', 'W', 'g', 'X', 'c', 'Q', '2'] : List Char).take 11⟩ :=
  extract_id_truncates_overlong
    ['d', 'Q', 'w', '4', 'w', '9', 'W', 'g', 'X', 'c', 'Q', '2']
    (by decide) (by decide)

end Perplexica
